import Mathlib

/-!
Verification of `fonz/utils.py` (looker-lawyer) and of the spec-modelled
SQL-validator engine (Query division, concurrency gate).

The Python functions are shallowly embedded: strings are Lean `String`s,
Python `int` is `Int`, Python list slicing (including negative indices) is
modelled by `pySlice`, and a function that can raise is embedded as an
`Except String` computation.
-/

/-- Python `sql.split("\n")` on the character list: splits on every
occurrence of the newline character; the empty string yields `[[]]`. -/
def splitNlChars : List Char → List (List Char)
  | [] => [[]]
  | c :: cs =>
    if c = '\n' then [] :: splitNlChars cs
    else
      match splitNlChars cs with
      | [] => [[c]]
      | w :: ws => (c :: w) :: ws

/-- Python `sql.split("\n")` as a list of strings. -/
def splitOnNl (s : String) : List String :=
  (splitNlChars s.data).map (fun cs => String.mk cs)

/-- The loop body of `mark_line`: Python's `enumerate` carried as an explicit
index `i`.  Line `i` equal to `line_number` gets `char + " "`, every other
line gets `"| "`. -/
def markFrom (i : Nat) (line_number : Int) (char : String) : List String → List String
  | [] => []
  | line :: rest =>
    (if (i : Int) = line_number then char ++ " " ++ line else "| " ++ line)
      :: markFrom (i + 1) line_number char rest

/-- `mark_line(lines, line_number, char="*")` from `fonz/utils.py`:
for a list of strings, mark a specified line with a prepended character. -/
def mark_line (lines : List String) (line_number : Int) (char : String) : List String :=
  markFrom 0 line_number char lines

/-- Normalisation of one slice bound, as Python does for `l[a:b]` with step 1:
a negative bound counts from the end (clamped below at 0), a nonnegative
bound is clamped above at the length. -/
def pyIndex (len : Nat) (i : Int) : Nat :=
  if i < 0 then (i + len).toNat else min i.toNat len

/-- Python list slicing `l[a:b]` (step 1), including negative bounds. -/
def pySlice {α : Type} (l : List α) (a b : Int) : List α :=
  (l.take (pyIndex l.length b)).drop (pyIndex l.length a)

/-- The window of lines selected by `extract_sql_context` before marking:
`split = sql.split("\n")`, `line_number -= 1`,
`line_start = line_number - window_size` clamped below at 0,
`line_end = line_number + (window_size + 1)` clamped above at `len(split)`,
then `split[line_start:line_end]`. -/
def selectedLines (sql : String) (line_number : Int) (window_size : Int) : List String :=
  let split := splitOnNl sql
  let ln := line_number - 1
  let line_start := ln - window_size
  let line_end := ln + (window_size + 1)
  let line_start := if 0 ≤ line_start then line_start else 0
  let line_end := if line_end ≤ (split.length : Int) then line_end else (split.length : Int)
  pySlice split line_start line_end

/-- `extract_sql_context(sql, line_number, window_size=2)` from
`fonz/utils.py`: the selected window is marked with
`mark_line(selected_lines, line_number=window_size)` (the `char` argument is
left at its Python default `"*"`) and joined with newlines. -/
def extract_sql_context (sql : String) (line_number : Int) (window_size : Int) : String :=
  String.intercalate "\n" (mark_line (selectedLines sql line_number window_size) window_size "*")

/-- A Python runtime value, as far as `compose_url` needs one: the
`isinstance(path, list)` check and `str(part)` stringification.  String
escaping inside `repr` of nested lists is not modelled (quotes are emitted,
escape sequences are not). -/
inductive PyVal : Type where
  | vstr (s : String)
  | vint (n : Int)
  | vbool (b : Bool)
  | vnone
  | vlist (elems : List PyVal)

mutual

/-- Python `repr` of a value (used by `str` on the elements of a list). -/
def pyRepr : PyVal → String
  | .vstr s => String.singleton '\'' ++ s ++ String.singleton '\''
  | .vint n => toString n
  | .vbool b => if b then "True" else "False"
  | .vnone => "None"
  | .vlist es => "[" ++ String.intercalate ", " (pyReprList es) ++ "]"

/-- `repr` mapped over a list of values. -/
def pyReprList : List PyVal → List String
  | [] => []
  | v :: vs => pyRepr v :: pyReprList vs

end

/-- Python `str(part)`: the identity on strings, decimal on integers,
`True`/`False`/`None` keywords, bracketed `repr`s for a list. -/
def pyStr : PyVal → String
  | .vstr s => s
  | .vint n => toString n
  | .vbool b => if b then "True" else "False"
  | .vnone => "None"
  | .vlist es => "[" ++ String.intercalate ", " (pyReprList es) ++ "]"

/-- Python `s.strip("/")`: remove leading and trailing `/` characters. -/
def stripSlashes (s : String) : String :=
  String.mk (((s.data.dropWhile (fun c => c = '/')).reverse.dropWhile
    (fun c => c = '/')).reverse)

/-- `compose_url(base_url, path)` from `fonz/utils.py`: raises `TypeError`
when `path` is not a list, otherwise joins `[base_url] + path` with `/`
after stripping `/` from both ends of `str(part)` for every part. -/
def compose_url (base_url : String) (path : PyVal) : Except String String :=
  match path with
  | .vlist elems =>
    .ok (String.intercalate "/"
      (((PyVal.vstr base_url) :: elems).map (fun part => stripSlashes (pyStr part))))
  | _ => .error "TypeError: URL path must be a list"

/-- Decimal digit string to number, as Python `int` on a digit string. -/
def digitsToNat (ds : List Char) : Nat :=
  ds.foldl (fun n c => 10 * n + (c.toNat - '0'.toNat)) 0

/-- Attempt to match the regex `at \[(\d+):\d+\]` at the head of the
character list, returning the captured group (the first digit run) on
success.  `\d` is modelled as an ASCII digit.  Because each digit run is
delimited by a non-digit (`:` or `]`), the backtracking regex matches at a
position exactly when the maximal digit runs are followed by the literal
delimiters, which is what this function checks. -/
def matchBqPattern (cs : List Char) : Option (List Char) :=
  match cs with
  | 'a' :: 't' :: ' ' :: '[' :: rest =>
    let d1 := rest.takeWhile (fun c => c.isDigit)
    let r1 := rest.dropWhile (fun c => c.isDigit)
    if d1.isEmpty then none
    else
      match r1 with
      | ':' :: rest2 =>
        let d2 := rest2.takeWhile (fun c => c.isDigit)
        let r2 := rest2.dropWhile (fun c => c.isDigit)
        if d2.isEmpty then none
        else
          match r2 with
          | ']' :: _ => some d1
          | _ => none
      | _ => none
  | _ => none

/-- The first (leftmost) match of the pattern in the message, as
`re.findall(...)[0]` produces it. -/
def findFirstBq : List Char → Option (List Char)
  | [] => none
  | c :: cs =>
    match matchBqPattern (c :: cs) with
    | some d => some d
    | none => findFirstBq cs

/-- `parse_error_line_number(error_message)` from `fonz/utils.py`.
When `re.findall` finds a match, the first captured group is converted with
`int` and returned.  When there is no match, `findall` returns `[]`, the
`[0]` lookup raises `IndexError`, the handler `pass`es, and the final
`return line_number` reads a local variable that was never assigned: Python
raises `UnboundLocalError`, embedded here as the `.error` case. -/
def parse_error_line_number (error_message : String) : Except String Nat :=
  match findFirstBq error_message.data with
  | some ds => .ok (digitsToNat ds)
  | none => .error "UnboundLocalError: local variable referenced before assignment"

/-- Specification-side description of an occurrence of the pattern
`at [<digits>:<digits>]` starting at position `i` of the character list,
with `d1` the line-number digits and `d2` the column digits. -/
def bqOccurrenceAt (cs : List Char) (i : Nat) (d1 d2 : List Char) : Prop :=
  d1 ≠ [] ∧ d2 ≠ [] ∧ (∀ c ∈ d1, c.isDigit) ∧ (∀ c ∈ d2, c.isDigit) ∧
  ∃ rest, cs.drop i = 'a' :: 't' :: ' ' :: '[' :: (d1 ++ ':' :: (d2 ++ ']' :: rest))

/-- There is some occurrence of the pattern starting at position `i`. -/
def bqOccursAt (cs : List Char) (i : Nat) : Prop :=
  ∃ d1 d2, bqOccurrenceAt cs i d1 d2

/-- Modelled from the spec: the status of a validation `Query`
(§3 of the spec; the SQL-validator module itself is not under `src/`,
only its unit tests are). -/
inductive QueryStatus : Type where
  | pending
  | dispatched
  | completedPassed
  | completedErrored
  | divided
deriving DecidableEq, Repr

/-- Modelled from the spec: a validation `Query` — an owning explore and an
ordered, non-empty, de-duplicated sequence of fields (§3).  Remote ids,
runtime and error details play no role in the claims and are omitted. -/
structure Query : Type where
  explore : String
  fields : List String
  status : QueryStatus
deriving Repr

/-- Modelled from the spec: `Query.divide` (§4.5, not under `src/`): split
the ordered field sequence at index `ceil(n/2)` into a first half of size
`ceil(n/2)` and a second half of size `floor(n/2)`; produce two new Pending
queries referencing the same explore. -/
def Query.divide (q : Query) : Query × Query :=
  let k := (q.fields.length + 1) / 2
  (⟨q.explore, q.fields.take k, .pending⟩, ⟨q.explore, q.fields.drop k, .pending⟩)

/-- Modelled from the spec: the shared state of the dispatch/collect engine
(§4.1–§4.4, not under `src/`): the statuses of all queries created so far
and the number of ConcurrencyGate permits currently available. -/
structure EngineState : Type where
  queries : List QueryStatus
  permits : Nat
deriving Repr

/-- Modelled from the spec: one atomic transition of the engine.  A
Dispatcher acquires a permit and moves a Pending query to Dispatched
(§4.3); the Collector resolves a Dispatched query to a terminal status and
releases the permit (§4.4); division additionally appends two Pending
children (§4.5). -/
inductive EngineStep : EngineState → EngineState → Prop where
  | dispatch (s : EngineState) (i : Nat)
      (hq : s.queries.get? i = some .pending) (hp : 0 < s.permits) :
      EngineStep s ⟨s.queries.set i .dispatched, s.permits - 1⟩
  | completePass (s : EngineState) (i : Nat)
      (hq : s.queries.get? i = some .dispatched) :
      EngineStep s ⟨s.queries.set i .completedPassed, s.permits + 1⟩
  | completeError (s : EngineState) (i : Nat)
      (hq : s.queries.get? i = some .dispatched) :
      EngineStep s ⟨s.queries.set i .completedErrored, s.permits + 1⟩
  | divideQuery (s : EngineState) (i : Nat)
      (hq : s.queries.get? i = some .dispatched) :
      EngineStep s
        ⟨(s.queries.set i .divided) ++ [.pending, .pending], s.permits + 1⟩

/-- Modelled from the spec: the initial engine state — one Pending root
query per explore, all `size` ConcurrencyGate permits available (§4.6). -/
def initState (size roots : Nat) : EngineState :=
  ⟨List.replicate roots .pending, size⟩

/-- The number of queries currently in Dispatched status. -/
def countDispatched (qs : List QueryStatus) : Nat :=
  qs.countP (fun st => st == QueryStatus.dispatched)

/-! ## Helper lemmas -/

theorem markFrom_length (i : Nat) (ln : Int) (c : String) (lines : List String) :
    (markFrom i ln c lines).length = lines.length := by
  induction lines generalizing i with
  | nil => rfl
  | cons hd tl ih => simp [markFrom, ih]

theorem markFrom_out_of_range (i : Nat) (ln : Int) (c : String) (lines : List String)
    (h : ln < (i : Int) ∨ (i : Int) + lines.length ≤ ln) :
    markFrom i ln c lines = lines.map (fun l => "| " ++ l) := by
  induction lines generalizing i with
  | nil => rfl
  | cons hd tl ih =>
    have hlen : ((hd :: tl).length : Int) = (tl.length : Int) + 1 := by
      push_cast [List.length_cons]; ring
    have hne : ((i : Int) ≠ ln) := by
      rcases h with h | h
      · omega
      · rw [hlen] at h; omega
    simp only [markFrom, if_neg hne, List.map]
    rw [ih]
    rcases h with h | h
    · left; push_cast; omega
    · right; rw [hlen] at h; push_cast; omega

theorem markFrom_get (i0 : Nat) (ln : Int) (c : String) (lines : List String) (j : Nat) :
    (markFrom i0 ln c lines).get? j =
      (lines.get? j).map
        (fun l => if ((i0 + j : Nat) : Int) = ln then c ++ " " ++ l else "| " ++ l) := by
  induction lines generalizing i0 j with
  | nil => simp [markFrom]
  | cons hd tl ih =>
    cases j with
    | zero => simp [markFrom]
    | succ m =>
      have harr : i0 + 1 + m = i0 + (m + 1) := by omega
      have hm := ih (i0 + 1) m
      rw [harr] at hm
      simpa [markFrom] using hm

theorem countP_set_of_get {α : Type} (p : α → Bool) (l : List α) (i : Nat) (a b : α)
    (h : l.get? i = some b) :
    (l.set i a).countP p + (if p b then 1 else 0) = l.countP p + (if p a then 1 else 0) := by
  induction l generalizing i with
  | nil => simp at h
  | cons hd tl ih =>
    cases i with
    | zero =>
      simp only [List.get?] at h
      cases h
      simp only [List.set, List.countP_cons]
      cases hpa : p a <;> cases hpb : p b <;> simp <;> omega
    | succ j =>
      simp only [List.get?] at h
      have := ih j h
      simp only [List.set, List.countP_cons]
      cases hph : p hd <;> simp <;> omega

theorem countDispatched_replicate_pending (n : Nat) :
    countDispatched (List.replicate n .pending) = 0 := by
  induction n with
  | zero => rfl
  | succ m ih => simpa [countDispatched, List.replicate, List.countP_cons] using ih

theorem engineStep_permit_invariant {s t : EngineState} (h : EngineStep s t) :
    countDispatched t.queries + t.permits = countDispatched s.queries + s.permits := by
  cases h with
  | dispatch i hq hp =>
    have hc := countP_set_of_get (fun st => st == QueryStatus.dispatched)
      s.queries i .dispatched .pending hq
    simp only [beq_iff_eq, reduceCtorEq, if_false, if_true, beq_self_eq_true] at hc
    simp only [countDispatched] at *
    omega
  | completePass i hq =>
    have hc := countP_set_of_get (fun st => st == QueryStatus.dispatched)
      s.queries i .completedPassed .dispatched hq
    simp only [beq_iff_eq, reduceCtorEq, if_false, if_true, beq_self_eq_true] at hc
    simp only [countDispatched] at *
    omega
  | completeError i hq =>
    have hc := countP_set_of_get (fun st => st == QueryStatus.dispatched)
      s.queries i .completedErrored .dispatched hq
    simp only [beq_iff_eq, reduceCtorEq, if_false, if_true, beq_self_eq_true] at hc
    simp only [countDispatched] at *
    omega
  | divideQuery i hq =>
    have hc := countP_set_of_get (fun st => st == QueryStatus.dispatched)
      s.queries i .divided .dispatched hq
    simp only [beq_iff_eq, reduceCtorEq, if_false, if_true, beq_self_eq_true] at hc
    simp only [countDispatched, List.countP_append] at *
    have h2 : (List.countP (fun st => st == QueryStatus.dispatched)
        [QueryStatus.pending, QueryStatus.pending]) = 0 := by decide
    omega


theorem drop_min_eq {α : Type} (X : List α) (N s : Nat) (hX : X.length ≤ N) :
    X.drop (min s N) = X.drop s := by
  rcases le_or_lt s N with h | h
  · rw [min_eq_left h]
  · rw [min_eq_right h.le, List.drop_eq_nil_of_le hX,
      List.drop_eq_nil_of_le (le_trans hX h.le)]

theorem take_drop_is_infix {α : Type} (l : List α) (e s : Nat) :
    ∃ pre post, l = pre ++ (l.take e).drop s ++ post := by
  refine ⟨(l.take e).take s, l.drop e, ?_⟩
  rw [List.take_append_drop, List.take_append_drop]

/-- The full behaviour of the window selection of `extract_sql_context`, for
every integer `line_number` and every natural window size: when the computed
end bound `line_number + window_size` is nonnegative the window is the
clamped `take`/`drop` slice of the SQL's lines; when it is negative, Python
slicing counts the end bound from the end of the list. -/
theorem selectedLines_slice_spec (sql : String) (L : Int) (k : Nat) :
    selectedLines sql L k =
      if 0 ≤ L + k then
        ((splitOnNl sql).take (min (L + k) ((splitOnNl sql).length : Int)).toNat).drop
          (max (L - 1 - k) 0).toNat
      else
        (splitOnNl sql).take (((splitOnNl sql).length : Int) + (L + k)).toNat := by
  simp only [selectedLines, pySlice, pyIndex]
  have harith : L - 1 + ((k : Int) + 1) = L + k := by ring
  rw [harith]
  by_cases hcase : 0 ≤ L + (k : Int)
  · rw [if_pos hcase]
    have hstart : (if 0 ≤ L - 1 - (k : Int) then L - 1 - (k : Int) else 0) =
        max (L - 1 - (k : Int)) 0 := by
      rcases le_or_lt 0 (L - 1 - (k : Int)) with h | h
      · rw [if_pos h, max_eq_left h]
      · rw [if_neg (by omega), max_eq_right h.le]
    rw [hstart]
    have hsn : ¬ (max (L - 1 - (k : Int)) 0 < 0) := by
      simp only [not_lt]; exact le_max_right _ _
    rw [if_neg hsn]
    set N := (splitOnNl sql).length with hN
    have hend : (if (if L + (k : Int) ≤ (N : Int) then L + (k : Int) else (N : Int)) < 0 then
        ((if L + (k : Int) ≤ (N : Int) then L + (k : Int) else (N : Int)) + N).toNat
      else min (if L + (k : Int) ≤ (N : Int) then L + (k : Int) else (N : Int)).toNat N) =
        (min (L + (k : Int)) (N : Int)).toNat := by
      rcases le_or_lt (L + (k : Int)) (N : Int) with h | h
      · rw [if_pos h, if_neg (by omega), min_eq_left h]
        omega
      · rw [if_neg (by omega), if_neg (by omega), min_eq_right h.le]
        omega
    rw [hend]
    exact drop_min_eq _ N _ (by
      rw [List.length_take]
      exact min_le_right _ _)
  · rw [if_neg hcase]
    have hstart : (if 0 ≤ L - 1 - (k : Int) then L - 1 - (k : Int) else 0) = 0 := by
      rw [if_neg (by omega)]
    rw [hstart]
    set N := (splitOnNl sql).length with hN
    have hle : L + (k : Int) ≤ (N : Int) := by omega
    rw [if_pos hle]
    have h0 : ¬ ((0 : Int) < 0) := by omega
    rw [if_neg h0]
    rw [if_pos (show L + (k : Int) < 0 by omega)]
    have hmin : (min (0 : Int).toNat N) = 0 := by simp
    rw [hmin, List.drop_zero]
    congr 1
    omega

theorem takeWhile_append_cons {α : Type} (p : α → Bool) (xs ys : List α) (y : α)
    (hxs : ∀ x ∈ xs, p x) (hy : p y = false) :
    (xs ++ y :: ys).takeWhile p = xs ∧ (xs ++ y :: ys).dropWhile p = y :: ys := by
  induction xs with
  | nil => simp [List.takeWhile_cons, List.dropWhile_cons, hy]
  | cons a as ih =>
    have ha : p a := hxs a (by simp)
    have hrest := ih (fun x hx => hxs x (by simp [hx]))
    simp [List.takeWhile_cons, List.dropWhile_cons, ha, hrest.1, hrest.2]

/-- The scanner matches the regex at the head of the list exactly when the
specification-side occurrence predicate holds at position 0: because each
digit run of the pattern is followed by a non-digit delimiter, the captured
group is forced to be the maximal digit run. -/
theorem matchBqPattern_eq_some_iff (cs : List Char) (d1 : List Char) :
    matchBqPattern cs = some d1 ↔ ∃ d2, bqOccurrenceAt cs 0 d1 d2 := by
  constructor
  · intro h
    unfold matchBqPattern at h
    split at h
    next rest =>
      by_cases he1 : (rest.takeWhile (fun c => c.isDigit)).isEmpty
      · rw [if_pos he1] at h; exact absurd h (by simp)
      · rw [if_neg he1] at h
        split at h
        next rest2 heq1 =>
          by_cases he2 : (rest2.takeWhile (fun c => c.isDigit)).isEmpty
          · rw [if_pos he2] at h; exact absurd h (by simp)
          · rw [if_neg he2] at h
            split at h
            next tail heq2 =>
              injection h with h
              subst h
              refine ⟨rest2.takeWhile (fun c => c.isDigit), ?_, ?_, ?_, ?_, tail, ?_⟩
              · intro hnil
                rw [hnil] at he1; exact he1 rfl
              · intro hnil
                rw [hnil] at he2; exact he2 rfl
              · intro c hc; exact List.mem_takeWhile_imp hc
              · intro c hc; exact List.mem_takeWhile_imp hc
              · rw [List.drop_zero]
                have e2 : rest2 = rest2.takeWhile (fun c => c.isDigit) ++ ']' :: tail := by
                  conv_lhs => rw [← List.takeWhile_append_dropWhile (fun c => c.isDigit) rest2,
                    heq2]
                have e1 : rest = rest.takeWhile (fun c => c.isDigit) ++
                    ':' :: (rest2.takeWhile (fun c => c.isDigit) ++ ']' :: tail) := by
                  conv_lhs => rw [← List.takeWhile_append_dropWhile (fun c => c.isDigit) rest,
                    heq1, e2]
                exact congrArg (fun l => 'a' :: 't' :: ' ' :: '[' :: l) e1
            next hne => exact absurd h (by simp)
        next hne => exact absurd h (by simp)
    next hne => exact absurd h (by simp)
  · rintro ⟨d2, hne1, hne2, hd1, hd2, rest, heq⟩
    rw [List.drop_zero] at heq
    subst heq
    have h1 := takeWhile_append_cons (fun c => c.isDigit) d1 (d2 ++ ']' :: rest) ':'
      (fun x hx => hd1 x hx) (by decide)
    have h2 := takeWhile_append_cons (fun c => c.isDigit) d2 rest ']'
      (fun x hx => hd2 x hx) (by decide)
    simp only [matchBqPattern]
    rw [h1.1, h1.2]
    rw [if_neg (by simpa [List.isEmpty_iff] using hne1)]
    show (if (List.takeWhile (fun c => c.isDigit) (d2 ++ ']' :: rest)).isEmpty = true
          then none
          else
            match List.dropWhile (fun c => c.isDigit) (d2 ++ ']' :: rest) with
            | ']' :: _ => some d1
            | _ => none) = some d1
    rw [h2.1]
    rw [if_neg (by simpa [List.isEmpty_iff] using hne2)]
    rw [h2.2]
    rfl

theorem bqOccurrenceAt_cons_succ (c : Char) (cs : List Char) (j : Nat) (d1 d2 : List Char) :
    bqOccurrenceAt (c :: cs) (j + 1) d1 d2 ↔ bqOccurrenceAt cs j d1 d2 := by
  unfold bqOccurrenceAt
  rw [List.drop_succ_cons]

/-- Left-to-right scanning finds the captured group of the occurrence at the
least starting position. -/
theorem findFirstBq_of_first (cs : List Char) (i : Nat) (d1 d2 : List Char)
    (h1 : bqOccurrenceAt cs i d1 d2)
    (h2 : ∀ j, j < i → ¬ bqOccursAt cs j) :
    findFirstBq cs = some d1 := by
  induction cs generalizing i with
  | nil =>
    obtain ⟨_, _, _, _, rest, heq⟩ := h1
    simp at heq
  | cons c cs' ih =>
    cases i with
    | zero =>
      have hm : matchBqPattern (c :: cs') = some d1 :=
        (matchBqPattern_eq_some_iff _ _).mpr ⟨d2, h1⟩
      simp [findFirstBq, hm]
    | succ j =>
      have hnone : matchBqPattern (c :: cs') = none := by
        cases hm : matchBqPattern (c :: cs') with
        | none => rfl
        | some d =>
          obtain ⟨e2, hocc⟩ := (matchBqPattern_eq_some_iff _ _).mp hm
          exact absurd ⟨d, e2, hocc⟩ (h2 0 (Nat.succ_pos j))
      have h1' : bqOccurrenceAt cs' j d1 d2 :=
        (bqOccurrenceAt_cons_succ c cs' j d1 d2).mp h1
      have h2' : ∀ j', j' < j → ¬ bqOccursAt cs' j' := by
        intro j' hj' ⟨e1, e2, hocc⟩
        exact h2 (j' + 1) (by omega)
          ⟨e1, e2, (bqOccurrenceAt_cons_succ c cs' j' e1 e2).mpr hocc⟩
      simp [findFirstBq, hnone]
      exact ih j h1' h2'

/-! ## Claim theorems -/

/-- C1 (code bug): with the default window size 2, `extract_sql_context`
does not star line `L` when `L` is within `window_size` of the first line:
`mark_line` is always told to star index `window_size` of the selected
window, but when the window start is clamped at 0 the offending line sits
at an earlier index.  At `sql = "SELECT\nx,\ny\nFROM t"`, `L = 1`, the
starred line is line 3 (`"y"`), not line 1 (`"SELECT"`). -/
theorem extract_sql_context_stars_wrong_line_at_start :
    extract_sql_context "SELECT\nx,\ny\nFROM t" 1 2 = "| SELECT\n| x,\n* y" := by
  decide

/-- C2 (code bug): on a message with no `at [<digits>:<digits>]` occurrence,
`parse_error_line_number` does not return an absent line number: `findall`
yields `[]`, the `[0]` lookup raises IndexError, the handler passes, and the
final `return line_number` reads an unassigned local, raising
UnboundLocalError. -/
theorem parse_error_line_number_raises_on_no_match :
    parse_error_line_number "Syntax issue near FROM" =
      Except.error "UnboundLocalError: local variable referenced before assignment" := rfl

/-- C5 (code bug): at `sql = "a\nb"`, `L = 1`, window 2, the offending line
(line 1, `"a"`) is prefixed `"| "`, and no line of the snippet carries the
`"*"` marker at all: the selected window has only 2 lines and `mark_line`
is told to star index `window_size = 2`. -/
theorem extract_sql_context_offending_line_unmarked :
    extract_sql_context "a\nb" 1 2 = "| a\n| b" := by decide

/-- C9 (counterexample): at `sql = "a\nb\nc"`, `line_number = -3`, window 2,
the computed slice end `line_number - 1 + window_size + 1 = -1` is negative,
so Python slicing counts from the end of the list: the snippet holds the
first two lines instead of the empty window that clamping to the bounds of
the SQL's lines would produce. -/
theorem extract_sql_context_negative_line_not_clamped :
    extract_sql_context "a\nb\nc" (-3) 2 = "| a\n| b" ∧
    extract_sql_context "a\nb\nc" (-3) 2 ≠ "" := by decide

/-- C10: for every list of lines and every integer `line_number`,
`mark_line` returns a list of the same length whose entry at every position
`i` is built from the input line at position `i` (starred when
`i = line_number`, `"| "`-prefixed otherwise) — so the lines stay in the
same order; and when `line_number` is outside `[0, len(lines))` every line
receives the `"| "` context prefix — there is no star and no error. -/
theorem mark_line_length_and_out_of_range (lines : List String) (ln : Int) (c : String) :
    (mark_line lines ln c).length = lines.length ∧
    (∀ i : Nat, (mark_line lines ln c).get? i =
      (lines.get? i).map
        (fun l => if (i : Int) = ln then c ++ " " ++ l else "| " ++ l)) ∧
    (ln < 0 ∨ (lines.length : Int) ≤ ln →
      mark_line lines ln c = lines.map (fun l => "| " ++ l)) := by
  refine ⟨markFrom_length 0 ln c lines, fun i => ?_,
    fun h => markFrom_out_of_range 0 ln c lines (by simpa using h)⟩
  have hg := markFrom_get 0 ln c lines i
  simpa using hg

/-- C10 witness: `mark_line ["a", "b"] (-1) "*"` keeps both lines, in order,
all with the `"| "` prefix; at the in-range index 1 with `line_number = 1`,
position 1 holds the starred input line `"b"`. -/
theorem mark_line_length_and_out_of_range_witness :
    (mark_line ["a", "b"] (-1) "*").length = 2 ∧
    (mark_line ["a", "b"] 1 "*").get? 1 = some "* b" ∧
    mark_line ["a", "b"] (-1) "*" = ["| a", "| b"] :=
  ⟨(mark_line_length_and_out_of_range ["a", "b"] (-1) "*").1,
   ((mark_line_length_and_out_of_range ["a", "b"] 1 "*").2.1 1).trans (by decide),
   ((mark_line_length_and_out_of_range ["a", "b"] (-1) "*").2.2
      (Or.inl (by decide))).trans (by decide)⟩

/-- C6: dividing a query with `n > 1` de-duplicated fields yields two
queries whose field lists are disjoint, concatenate back to the parent's
fields in original order, and have sizes `ceil(n/2)` and `floor(n/2)`. -/
theorem divide_disjoint_union_sizes (q : Query) (h1 : 1 < q.fields.length)
    (h2 : q.fields.Nodup) :
    q.divide.1.fields ++ q.divide.2.fields = q.fields ∧
    q.divide.1.fields.Disjoint q.divide.2.fields ∧
    q.divide.1.fields.length = (q.fields.length + 1) / 2 ∧
    q.divide.2.fields.length = q.fields.length / 2 := by
  refine ⟨List.take_append_drop _ _, ?_, ?_, ?_⟩
  · have hnd : (q.fields.take ((q.fields.length + 1) / 2) ++
        q.fields.drop ((q.fields.length + 1) / 2)).Nodup := by
      rw [List.take_append_drop]; exact h2
    exact (List.nodup_append.mp hnd).2.2
  · simp only [Query.divide, List.length_take]
    omega
  · simp only [Query.divide, List.length_drop]
    omega

/-- C6 witness: dividing the query over fields `["a", "b", "c"]`. -/
theorem divide_disjoint_union_sizes_witness :
    (Query.mk "e" ["a", "b", "c"] .pending).divide.1.fields ++
      (Query.mk "e" ["a", "b", "c"] .pending).divide.2.fields = ["a", "b", "c"] ∧
    (Query.mk "e" ["a", "b", "c"] .pending).divide.1.fields.Disjoint
      (Query.mk "e" ["a", "b", "c"] .pending).divide.2.fields ∧
    (Query.mk "e" ["a", "b", "c"] .pending).divide.1.fields.length = 2 ∧
    (Query.mk "e" ["a", "b", "c"] .pending).divide.2.fields.length = 1 :=
  divide_disjoint_union_sizes ⟨"e", ["a", "b", "c"], .pending⟩ (by decide) (by decide)

/-- C8: `compose_url` returns a TypeError exactly when `path` is not a
list; on a list it joins `base_url` and the stringified, slash-stripped
parts with single `/` separators and no other normalization. -/
theorem compose_url_typecheck_and_join :
    (∀ (b : String) (l : List PyVal),
      compose_url b (.vlist l) =
        .ok (String.intercalate "/"
          (stripSlashes b :: l.map (fun p => stripSlashes (pyStr p))))) ∧
    (∀ (b : String) (p : PyVal), (∀ l, p ≠ .vlist l) →
      compose_url b p = .error "TypeError: URL path must be a list") := by
  constructor
  · intro b l; rfl
  · intro b p h
    cases p with
    | vlist l => exact absurd rfl (h l)
    | vstr s => rfl
    | vint n => rfl
    | vbool bb => rfl
    | vnone => rfl

/-- C8 witness: a list path with an empty element yields consecutive
slashes; a string path is a TypeError. -/
theorem compose_url_typecheck_and_join_witness :
    compose_url "https://api/" (.vlist [.vstr "/x/", .vstr "", .vint 4]) =
      .ok "https://api/x//4" ∧
    compose_url "b" (.vstr "a") = .error "TypeError: URL path must be a list" :=
  ⟨(compose_url_typecheck_and_join.1 "https://api/"
      [.vstr "/x/", .vstr "", .vint 4]).trans (congrArg Except.ok (by decide)),
   compose_url_typecheck_and_join.2 "b" (.vstr "a") (fun l h => PyVal.noConfusion h)⟩

/-- C3: for every valid 1-indexed line `L` and window size `k ≥ 0`, the
snippet of `extract_sql_context sql L k` is the marked selected window; it
has at most `2*k+1` lines, each taken in order from the lines of `sql`
(the window is a contiguous infix); and when `L` is more than `k` lines
from both the first and the last line, the window is exactly the `2*k+1`
consecutive lines of `sql` centered on line `L` (the middle entry, at index
`k`, is line `L` itself). -/
theorem extract_sql_context_window_bounds (sql : String) (L : Int) (k : Nat)
    (h1 : 1 ≤ L) (h2 : L ≤ ((splitOnNl sql).length : Int)) :
    extract_sql_context sql L k =
      String.intercalate "\n" (mark_line (selectedLines sql L k) k "*") ∧
    (mark_line (selectedLines sql L k) k "*").length ≤ 2 * k + 1 ∧
    (∃ pre post, splitOnNl sql = pre ++ selectedLines sql L k ++ post) ∧
    ((k : Int) < L - 1 ∧ L + k < ((splitOnNl sql).length : Int) →
      (selectedLines sql L k).length = 2 * k + 1 ∧
      selectedLines sql L k =
        ((splitOnNl sql).drop (L - 1 - k).toNat).take (2 * k + 1) ∧
      (selectedLines sql L k).get? k = (splitOnNl sql).get? (L - 1).toNat) := by
  have hsel := selectedLines_slice_spec sql L k
  rw [if_pos (show (0 : Int) ≤ L + k by omega)] at hsel
  refine ⟨rfl, ?_, ?_, ?_⟩
  · rw [mark_line, markFrom_length, hsel, List.length_drop, List.length_take]
    omega
  · rw [hsel]
    exact take_drop_is_infix (splitOnNl sql) _ _
  · rintro ⟨hc1, hc2⟩
    have hmin : min (L + (k : Int)) ((splitOnNl sql).length : Int) = L + k :=
      min_eq_left hc2.le
    have hmax : max (L - 1 - (k : Int)) 0 = L - 1 - k :=
      max_eq_left (by omega)
    rw [hmin, hmax] at hsel
    have hsub : (L + (k : Int)).toNat - (L - 1 - (k : Int)).toNat = 2 * k + 1 := by
      omega
    rw [List.drop_take, hsub] at hsel
    refine ⟨?_, hsel, ?_⟩
    · rw [hsel, List.length_take, List.length_drop]
      omega
    · rw [hsel, List.get?_take (by omega), List.get?_drop]
      congr 1
      omega

/-- C3 witness: SQL with five lines, `L = 3`, window 1: the window has
exactly three lines, is lines 2–4 of the SQL, and its middle entry is
line 3. -/
theorem extract_sql_context_window_bounds_witness :
    (selectedLines "a\nb\nc\nd\ne" 3 1).length = 2 * 1 + 1 ∧
    selectedLines "a\nb\nc\nd\ne" 3 1 =
      ((splitOnNl "a\nb\nc\nd\ne").drop ((3 : Int) - 1 - 1).toNat).take (2 * 1 + 1) ∧
    (selectedLines "a\nb\nc\nd\ne" 3 1).get? 1 =
      (splitOnNl "a\nb\nc\nd\ne").get? ((3 : Int) - 1).toNat :=
  (extract_sql_context_window_bounds "a\nb\nc\nd\ne" 3 1 (by decide)
    (by decide)).2.2.2 ⟨by decide, by decide⟩

/-- C4: when the message has an occurrence of `at [<digits>:<digits>]` at
position `i` and none earlier, `parse_error_line_number` returns the
numeric value of the line-number digits of that first occurrence. -/
theorem parse_error_line_number_first_occurrence (msg : String) (i : Nat)
    (d1 d2 : List Char)
    (h1 : bqOccurrenceAt msg.data i d1 d2)
    (h2 : ∀ j, j < i → ¬ bqOccursAt msg.data j) :
    parse_error_line_number msg = .ok (digitsToNat d1) := by
  unfold parse_error_line_number
  rw [findFirstBq_of_first msg.data i d1 d2 h1 h2]

/-- C4 witness: a message with two occurrences yields the line number of
the first one. -/
theorem parse_error_line_number_first_occurrence_witness :
    parse_error_line_number "at [45:2] and at [9:9]" = Except.ok 45 := by
  have h := parse_error_line_number_first_occurrence "at [45:2] and at [9:9]" 0
    ['4', '5'] ['2']
    ⟨by decide, by decide, by decide, by decide, (" and at [9:9]".data), by decide⟩
    (fun j hj => absurd hj (Nat.not_lt_zero j))
  exact h

/-- C7: in every engine state reachable from the initial state (spec-modelled
dispatch/collect engine), the number of queries in Dispatched status never
exceeds the configured ConcurrencyGate size.  The invariant is that
Dispatched queries plus available permits always equal the gate size. -/
theorem dispatched_le_gate_size (size roots : Nat) (s : EngineState)
    (h : Relation.ReflTransGen EngineStep (initState size roots) s) :
    countDispatched s.queries ≤ size := by
  have key : countDispatched s.queries + s.permits = size := by
    induction h with
    | refl => simpa [initState] using countDispatched_replicate_pending roots
    | tail h1 h2 ih => rw [engineStep_permit_invariant h2]; exact ih
  omega

/-- C7 witness: with gate size 1 and one root query, the state after one
dispatch step is reachable and has one Dispatched query, which is within
the gate size. -/
theorem dispatched_le_gate_size_witness :
    Relation.ReflTransGen EngineStep (initState 1 1) ⟨[QueryStatus.dispatched], 0⟩ ∧
    countDispatched [QueryStatus.dispatched] ≤ 1 := by
  have hstep : EngineStep (initState 1 1) ⟨[QueryStatus.dispatched], 0⟩ := by
    have h0 : (initState 1 1).queries.get? 0 = some QueryStatus.pending := rfl
    exact EngineStep.dispatch (initState 1 1) 0 h0 (by decide)
  exact ⟨Relation.ReflTransGen.single hstep,
    dispatched_le_gate_size 1 1 ⟨[QueryStatus.dispatched], 0⟩
      (Relation.ReflTransGen.single hstep)⟩

/-- C9 (amended): `extract_sql_context` is total — for every string and
every integer line number it returns the joined, marked window — and the
selected window is the clamped slice of the SQL's lines whenever the
computed end bound `line_number + window_size` is nonnegative (possibly
empty); when that bound is negative, Python slicing counts it from the end
of the list, selecting a prefix of the lines instead of the empty clamped
window. -/
theorem selectedLines_python_slice_characterization (sql : String) (L : Int) (k : Nat) :
    extract_sql_context sql L k =
      String.intercalate "\n" (mark_line (selectedLines sql L k) k "*") ∧
    selectedLines sql L k =
      (if 0 ≤ L + k then
        ((splitOnNl sql).take (min (L + k) ((splitOnNl sql).length : Int)).toNat).drop
          (max (L - 1 - k) 0).toNat
      else
        (splitOnNl sql).take (((splitOnNl sql).length : Int) + (L + k)).toNat) :=
  ⟨rfl, selectedLines_slice_spec sql L k⟩
